import Mathlib

/-!
Verification of the link checker `check_links.py`.

The program has three parts, embedded here as executable Lean functions:

* the Extractor `extract_links`, which scans a markdown document line by
  line and collects `(line_number, url)` pairs from markdown-style links
  `[text](url)` (regex `\[([^\]]+)\]\(([^\)]+)\)`) and from bare URLs
  (regex `(?<!\()https?://[^\s\)]+`);
* the Prober `check_link`, which issues a HEAD request, falls back to a
  GET request when the HEAD status is at least 400, classifies the final
  status code, and maps every network-level failure to a broken result;
* the Driver `run_main`, which extracts, probes each link in order,
  accumulates valid and broken results, and chooses the exit code.

The network is modelled as a function from the kind of request issued to
an outcome: either an HTTP response with a status code, or one of the
exception classes the Python code catches.  Regex scanning is embedded by
direct leftmost-match scanners over the character list of each line,
using a fuel argument equal to the list length so that every definition
is structurally recursive and computable; fuel irrelevance is proved
below (`findMdAux_congr`, `findBareAux_congr`).
-/

/-- Outcome of a single HTTP request: a response carrying a status code,
or one of the exception classes that `requests` can raise and the
Python code catches. -/
inductive NetOutcome where
  | ok (status : Nat)
  | timeout
  | connError
  | tooManyRedirects
  | requestError (detail : String)
  | otherError (detail : String)
deriving DecidableEq

/-- Kind of request issued by the Prober: the initial HEAD request or the
fallback GET request. -/
inductive ReqKind where
  | head
  | get
deriving DecidableEq

/-- Classification of the final response status, mirroring
`if response.status_code < 400: return True, "OK", code
 else: return False, f"HTTP {code}", code`. -/
def classifyStatus (s : Nat) : Bool × String × Nat :=
  if s < 400 then (true, "OK", s) else (false, "HTTP " ++ toString s, s)

/-- The Prober `check_link`.  `net` gives the outcome of each request the
session would perform.  Returns the Python triple
`(is_valid, status_message, status_code)` together with the list of
requests actually issued, in order. -/
def check_link (net : ReqKind → NetOutcome) : (Bool × String × Nat) × List ReqKind :=
  match net ReqKind.head with
  | NetOutcome.ok s =>
      if 400 ≤ s then
        match net ReqKind.get with
        | NetOutcome.ok s2 => (classifyStatus s2, [ReqKind.head, ReqKind.get])
        | NetOutcome.timeout => ((false, "Timeout", 0), [ReqKind.head, ReqKind.get])
        | NetOutcome.connError => ((false, "Connection Error", 0), [ReqKind.head, ReqKind.get])
        | NetOutcome.tooManyRedirects =>
            ((false, "Too Many Redirects", 0), [ReqKind.head, ReqKind.get])
        | NetOutcome.requestError d =>
            ((false, "Request Error: " ++ d, 0), [ReqKind.head, ReqKind.get])
        | NetOutcome.otherError d =>
            ((false, "Unknown Error: " ++ d, 0), [ReqKind.head, ReqKind.get])
      else (classifyStatus s, [ReqKind.head])
  | NetOutcome.timeout => ((false, "Timeout", 0), [ReqKind.head])
  | NetOutcome.connError => ((false, "Connection Error", 0), [ReqKind.head])
  | NetOutcome.tooManyRedirects => ((false, "Too Many Redirects", 0), [ReqKind.head])
  | NetOutcome.requestError d => ((false, "Request Error: " ++ d, 0), [ReqKind.head])
  | NetOutcome.otherError d => ((false, "Unknown Error: " ++ d, 0), [ReqKind.head])

/-- The status code of the response used for the final verdict of
`check_link`, when the control path reaches the classification step:
the HEAD status when it is below 400, otherwise the GET status when the
GET request returns a response. -/
def finalStatus (net : ReqKind → NetOutcome) : Option Nat :=
  match net ReqKind.head with
  | NetOutcome.ok s =>
      if 400 ≤ s then
        match net ReqKind.get with
        | NetOutcome.ok s2 => some s2
        | _ => none
      else some s
  | _ => none

/-- Python regex `\s` on `str` patterns: the Unicode whitespace characters,
exactly the set CPython's `Py_UNICODE_ISSPACE` accepts — the ASCII
whitespace U+0009..U+000D and U+0020, the control characters
U+001C..U+001F, next line U+0085, no-break space U+00A0, ogham space mark
U+1680, the typographic spaces U+2000..U+200A, line and paragraph
separators U+2028 and U+2029, narrow no-break space U+202F, medium
mathematical space U+205F, and ideographic space U+3000. -/
def isPySpace (c : Char) : Bool :=
  c = ' ' || c = '\t' || c = '\n' || c = '\r' || c = '\x0b' || c = '\x0c' ||
  c = '\x1c' || c = '\x1d' || c = '\x1e' || c = '\x1f' ||
  c = '\x85' || c = '\xa0' || c = '\u1680' ||
  c = '\u2000' || c = '\u2001' || c = '\u2002' || c = '\u2003' || c = '\u2004' ||
  c = '\u2005' || c = '\u2006' || c = '\u2007' || c = '\u2008' || c = '\u2009' ||
  c = '\u200a' || c = '\u2028' || c = '\u2029' || c = '\u202f' || c = '\u205f' ||
  c = '\u3000'

/-- Characters allowed inside a bare URL: regex class `[^\s\)]`. -/
def urlChar (c : Char) : Bool :=
  !(isPySpace c) && c != ')'

def httpChars : List Char := ['h', 't', 't', 'p', ':', '/', '/']

def httpsChars : List Char := ['h', 't', 't', 'p', 's', ':', '/', '/']

def httpScheme : String := "http://"

def httpsScheme : String := "https://"

/-- The filter `url.startswith(('http://', 'https://'))` applied to
markdown-link targets. -/
def startsWithHttp (u : String) : Bool :=
  httpChars.isPrefixOf u.data || httpsChars.isPrefixOf u.data

/-- Match of the literal part `https?://` of the bare-URL regex at the
head of `l`: the greedy optional `s` tries `https://` first, then
`http://`.  Returns the matched scheme characters and the remainder. -/
def tryScheme (l : List Char) : Option (List Char × List Char) :=
  if httpsChars.isPrefixOf l then some (httpsChars, l.drop 8)
  else if httpChars.isPrefixOf l then some (httpChars, l.drop 7)
  else none

/-- Match of the bare-URL regex `https?://[^\s\)]+` at the head of `l`
(the lookbehind is handled by the scanner).  Returns the matched text
and the remainder of the line. -/
def tryUrl (l : List Char) : Option (String × List Char) :=
  match tryScheme l with
  | some (scheme, r) =>
      if (r.takeWhile urlChar).isEmpty then none
      else some ((scheme ++ r.takeWhile urlChar).asString, r.dropWhile urlChar)
  | none => none

/-- Match of the markdown-link regex `\[([^\]]+)\]\(([^\)]+)\)` at a
position just after an opening bracket: `l` is the rest of the line.
The display text is the maximal nonempty run without a closing bracket,
then a literal closing bracket and opening parenthesis, then the target
is the maximal nonempty run without a closing parenthesis, then a
literal closing parenthesis.  Returns the two captures and the
remainder of the line after the match. -/
def tryMd (l : List Char) : Option (String × String × List Char) :=
  if (l.takeWhile (fun c => c != ']')).isEmpty then none
  else
    match l.dropWhile (fun c => c != ']') with
    | [] => none
    | c1 :: r1 =>
        if c1 = ']' then
          match r1 with
          | [] => none
          | c2 :: r2 =>
              if c2 = '(' then
                if (r2.takeWhile (fun c => c != ')')).isEmpty then none
                else
                  match r2.dropWhile (fun c => c != ')') with
                  | [] => none
                  | c3 :: r4 =>
                      if c3 = ')' then
                        some ((l.takeWhile (fun c => c != ']')).asString,
                              (r2.takeWhile (fun c => c != ')')).asString, r4)
                      else none
              else none
        else none

/-- Leftmost non-overlapping scan of `re.findall` for the markdown-link
regex, with fuel.  A match can only start at an opening bracket; after a
match the scan resumes after the consumed text, otherwise it advances by
one character. -/
def findMdAux : Nat → List Char → List (String × String)
  | 0, _ => []
  | _ + 1, [] => []
  | fuel + 1, c :: cs =>
      if c = '[' then
        match tryMd cs with
        | some (t, u, r) => (t, u) :: findMdAux fuel r
        | none => findMdAux fuel cs
      else findMdAux fuel cs

/-- All markdown-link matches `(text, url)` of a line, in scan order. -/
def findMd (l : List Char) : List (String × String) :=
  findMdAux l.length l

/-- Leftmost non-overlapping scan of `re.findall` for the bare-URL regex
`(?<!\()https?://[^\s\)]+`, with fuel.  `prev` is the character just
before the current position, used by the negative lookbehind; after a
match the scan resumes after the matched text. -/
def findBareAux : Nat → Option Char → List Char → List String
  | 0, _, _ => []
  | _ + 1, _, [] => []
  | fuel + 1, prev, c :: cs =>
      if prev = some '(' then findBareAux fuel (some c) cs
      else
        match tryUrl (c :: cs) with
        | some (u, r) => u :: findBareAux fuel u.data.getLast? r
        | none => findBareAux fuel (some c) cs

/-- Bare-URL scan starting with a given preceding character. -/
def findBareGo (prev : Option Char) (l : List Char) : List String :=
  findBareAux l.length prev l

/-- All bare-URL matches of a line, in scan order. -/
def findBare (l : List Char) : List String :=
  findBareGo none l

/-- Links contributed by one line, numbered `n`: first every markdown
target that starts with `http://` or `https://`, then every bare URL,
exactly as the two loops of `extract_links` append them. -/
def lineLinks (n : Nat) (line : String) : List (Nat × String) :=
  ((findMd line.data).filter (fun q => startsWithHttp q.2)).map (fun q => (n, q.2))
    ++ (findBare line.data).map (fun u => (n, u))

/-- The per-line loop of `extract_links`, numbering lines from `n`. -/
def extractGo (n : Nat) : List String → List (Nat × String)
  | [] => []
  | line :: rest => lineLinks n line ++ extractGo (n + 1) rest

/-- The Extractor `extract_links`: the document is given as its list of
lines; lines are numbered from 1. -/
def extract_links (doc : List String) : List (Nat × String) :=
  extractGo 1 doc

/-- Result of one run of the Driver: the exit code, the URLs passed to
the Prober in order, and the accumulated valid and broken lists. -/
structure RunResult where
  exitCode : Nat
  probed : List String
  valid : List (Nat × String × Nat)
  broken : List (Nat × String × String)
deriving DecidableEq

/-- The probing loop of `main`: for each link call `check_link`, append
to the valid list on success and to the broken list on failure.  Returns
`(valid, broken, probed)`. -/
def probeAll (net : String → ReqKind → NetOutcome) :
    List (Nat × String) →
      List (Nat × String × Nat) × List (Nat × String × String) × List String
  | [] => ([], [], [])
  | (ln, url) :: rest =>
      if ((check_link (net url)).1).1 then
        ((ln, url, ((check_link (net url)).1).2.2) :: (probeAll net rest).1,
          (probeAll net rest).2.1, url :: (probeAll net rest).2.2)
      else
        ((probeAll net rest).1,
          (ln, url, ((check_link (net url)).1).2.1) :: (probeAll net rest).2.1,
          url :: (probeAll net rest).2.2)

/-- The Driver `main`: extract, exit 1 at once when no links were found,
otherwise probe every link and exit 1 when any link is broken, 0 when
all are valid. -/
def run_main (doc : List String) (net : String → ReqKind → NetOutcome) : RunResult :=
  if extract_links doc = [] then ⟨1, [], [], []⟩
  else
    ⟨if (probeAll net (extract_links doc)).2.1 = [] then 0 else 1,
      (probeAll net (extract_links doc)).2.2,
      (probeAll net (extract_links doc)).1,
      (probeAll net (extract_links doc)).2.1⟩

example : extract_links ["See [docs](https://good.example/page)."] =
    [(1, "https://good.example/page")] := by decide

example : extract_links ["Dead: https://dead.example/page"] =
    [(1, "https://dead.example/page")] := by decide

example : extract_links ["https://a [b](https://c)"] =
    [(1, "https://c"), (1, "https://a")] := by decide

example : extract_links ["[t](http://a\\)b)"] = [(1, "http://a\\")] := by decide

example : extract_links ["http://a?u=https://b"] = [(1, "http://a?u=https://b")] := by decide

example : extract_links ["x http://a\u00A0b"] = [(1, "http://a")] := by decide

example : extract_links ["[](https://example.com)"] = [] := by decide

example : extract_links ["[text]()"] = [] := by decide

example : extract_links ["x http://a y", "[b](https://c) http://d"] =
    [(1, "http://a"), (2, "https://c"), (2, "http://d")] := by decide

example : check_link (fun _ => NetOutcome.ok 200) = ((true, "OK", 200), [ReqKind.head]) := by
  decide

example : check_link (fun k => match k with
    | ReqKind.head => NetOutcome.ok 405
    | ReqKind.get => NetOutcome.ok 200) =
    ((true, "OK", 200), [ReqKind.head, ReqKind.get]) := by decide

/-! ## Basic scanning helper lemmas -/

lemma dropWhile_length_le (p : Char → Bool) (l : List Char) :
    (l.dropWhile p).length ≤ l.length :=
  (List.dropWhile_sublist p).length_le

lemma takeWhile_sentinel (p : Char → Bool) (a b : List Char)
    (ha : ∀ c ∈ a, p c = true) (hb : ∀ x xs, b = x :: xs → p x = false) :
    (a ++ b).takeWhile p = a := by
  rw [List.takeWhile_append_of_pos ha]
  cases b with
  | nil => simp
  | cons x xs => rw [List.takeWhile_cons_of_neg (by simp [hb x xs rfl])]; simp

lemma dropWhile_sentinel (p : Char → Bool) (a b : List Char)
    (ha : ∀ c ∈ a, p c = true) (hb : ∀ x xs, b = x :: xs → p x = false) :
    (a ++ b).dropWhile p = b := by
  rw [List.dropWhile_append_of_pos ha]
  cases b with
  | nil => simp
  | cons x xs => rw [List.dropWhile_cons_of_neg (by simp [hb x xs rfl])]

lemma asString_data (s : String) : s.data.asString = s := by
  cases s
  rfl

lemma asString_ne_empty (l : List Char) (h : l ≠ []) : l.asString ≠ "" := by
  intro he
  exact h (congrArg String.data he)

/-! ## Markdown-link scanner lemmas -/

lemma tryMd_length {l : List Char} {t u : String} {r : List Char}
    (h : tryMd l = some (t, u, r)) : r.length ≤ l.length := by
  unfold tryMd at h
  split at h
  · exact absurd h (by simp)
  · split at h
    · exact absurd h (by simp)
    · rename_i c1 r1 heq1
      split at h
      · cases r1 with
        | nil => exact absurd h (by simp)
        | cons c2 r2 =>
            simp only [] at h
            split at h
            · split at h
              · exact absurd h (by simp)
              · split at h
                · exact absurd h (by simp)
                · rename_i c3 r4 heq2
                  split at h
                  · have h1 : (c1 :: c2 :: r2).length ≤ l.length := by
                      rw [← heq1]; exact dropWhile_length_le _ _
                    have h2 : (c3 :: r4).length ≤ r2.length := by
                      rw [← heq2]; exact dropWhile_length_le _ _
                    have hr : r = r4 := by
                      injection h with h'
                      injection h' with h1' h2'
                      injection h2' with h3' h4'
                      exact h4'.symm
                    subst hr
                    simp only [List.length_cons] at h1 h2
                    omega
                  · exact absurd h (by simp)
            · exact absurd h (by simp)
      · exact absurd h (by simp)

lemma findMdAux_congr : ∀ (n m : Nat) (l : List Char),
    l.length ≤ n → l.length ≤ m → findMdAux n l = findMdAux m l := by
  intro n
  induction n with
  | zero =>
      intro m l hn _
      have hl : l = [] := List.length_eq_zero.mp (Nat.le_zero.mp hn)
      subst hl
      cases m <;> rfl
  | succ n ih =>
      intro m l hn hm
      cases l with
      | nil => cases m <;> rfl
      | cons c cs =>
          cases m with
          | zero => simp at hm
          | succ m =>
              simp only [List.length_cons, Nat.add_le_add_iff_right] at hn hm
              simp only [findMdAux]
              by_cases hc : c = '['
              · rw [if_pos hc, if_pos hc]
                cases htm : tryMd cs with
                | none => exact ih m cs hn hm
                | some x =>
                    obtain ⟨t, u, r⟩ := x
                    have hr : r.length ≤ cs.length := tryMd_length htm
                    simp only []
                    rw [ih m r (le_trans hr hn) (le_trans hr hm)]
              · rw [if_neg hc, if_neg hc]
                exact ih m cs hn hm

lemma findMd_nil : findMd [] = [] := rfl

lemma findMd_cons (c : Char) (cs : List Char) :
    findMd (c :: cs) =
      if c = '[' then
        match tryMd cs with
        | some (t, u, r) => (t, u) :: findMd r
        | none => findMd cs
      else findMd cs := by
  show findMdAux (c :: cs).length (c :: cs) = _
  simp only [List.length_cons, findMdAux]
  by_cases hc : c = '['
  · rw [if_pos hc, if_pos hc]
    cases htm : tryMd cs with
    | none => exact findMdAux_congr _ _ _ (le_refl _) (le_refl _)
    | some x =>
        obtain ⟨t, u, r⟩ := x
        simp only []
        rw [findMdAux_congr cs.length r.length r (tryMd_length htm) (le_refl _)]
        rfl
  · rw [if_neg hc, if_neg hc]
    exact findMdAux_congr _ _ _ (le_refl _) (le_refl _)

lemma tryMd_shape (text url post : List Char) (ht : text ≠ []) (ht2 : ']' ∉ text)
    (hu : url ≠ []) (hu2 : ')' ∉ url) :
    tryMd (text ++ ']' :: '(' :: (url ++ ')' :: post)) =
      some (text.asString, url.asString, post) := by
  have hta : ∀ c ∈ text, (c != ']') = true := by
    intro c hc
    rw [bne_iff_ne]
    intro h
    exact ht2 (h ▸ hc)
  have hua : ∀ c ∈ url, (c != ')') = true := by
    intro c hc
    rw [bne_iff_ne]
    intro h
    exact hu2 (h ▸ hc)
  have h1 : (text ++ ']' :: '(' :: (url ++ ')' :: post)).takeWhile (fun c => c != ']') = text := by
    refine takeWhile_sentinel _ _ _ hta ?_
    intro x xs hx
    injection hx with hx1 _
    subst hx1
    decide
  have h2 : (text ++ ']' :: '(' :: (url ++ ')' :: post)).dropWhile (fun c => c != ']') =
      ']' :: '(' :: (url ++ ')' :: post) := by
    refine dropWhile_sentinel _ _ _ hta ?_
    intro x xs hx
    injection hx with hx1 _
    subst hx1
    decide
  have h3 : (url ++ ')' :: post).takeWhile (fun c => c != ')') = url := by
    refine takeWhile_sentinel _ _ _ hua ?_
    intro x xs hx
    injection hx with hx1 _
    subst hx1
    decide
  have h4 : (url ++ ')' :: post).dropWhile (fun c => c != ')') = ')' :: post := by
    refine dropWhile_sentinel _ _ _ hua ?_
    intro x xs hx
    injection hx with hx1 _
    subst hx1
    decide
  have hte : text.isEmpty = false := by
    cases text with
    | nil => exact absurd rfl ht
    | cons a as => rfl
  have hue : url.isEmpty = false := by
    cases url with
    | nil => exact absurd rfl hu
    | cons a as => rfl
  unfold tryMd
  rw [h1, h2]
  simp [h3, h4, hte, hue]

lemma findMd_shape (pre text url post : List Char) (hpre : '[' ∉ pre) (ht : text ≠ [])
    (ht2 : ']' ∉ text) (hu : url ≠ []) (hu2 : ')' ∉ url) :
    findMd (pre ++ '[' :: (text ++ ']' :: '(' :: (url ++ ')' :: post))) =
      (text.asString, url.asString) :: findMd post := by
  induction pre with
  | nil =>
      rw [List.nil_append, findMd_cons, if_pos rfl,
        tryMd_shape text url post ht ht2 hu hu2]
  | cons c cs ih =>
      rw [List.cons_append, findMd_cons]
      have hc : ¬ c = '[' := by
        intro h
        subst h
        exact hpre (List.mem_cons_self _ _)
      rw [if_neg hc]
      exact ih (fun h => hpre (List.mem_cons_of_mem c h))

/-! ## Bare-URL scanner lemmas -/

lemma tryScheme_https (r : List Char) : tryScheme (httpsChars ++ r) = some (httpsChars, r) := by
  unfold tryScheme
  have h1 : httpsChars.isPrefixOf (httpsChars ++ r) = true := by
    simp [httpsChars, List.isPrefixOf]
  rw [h1]
  simp [httpsChars]

lemma tryScheme_http (r : List Char) : tryScheme (httpChars ++ r) = some (httpChars, r) := by
  unfold tryScheme
  have h1 : httpsChars.isPrefixOf (httpChars ++ r) = false := by
    simp [httpsChars, httpChars, List.isPrefixOf]
  have h2 : httpChars.isPrefixOf (httpChars ++ r) = true := by
    simp [httpChars, List.isPrefixOf]
  rw [h1, h2]
  simp [httpChars]

lemma tryScheme_ne_h (c : Char) (cs : List Char) (hc : c ≠ 'h') : tryScheme (c :: cs) = none := by
  have h1 : httpsChars.isPrefixOf (c :: cs) = false := by
    show (('h' == c) && List.isPrefixOf _ cs) = false
    rw [beq_eq_false_iff_ne.mpr (Ne.symm hc), Bool.false_and]
  have h2 : httpChars.isPrefixOf (c :: cs) = false := by
    show (('h' == c) && List.isPrefixOf _ cs) = false
    rw [beq_eq_false_iff_ne.mpr (Ne.symm hc), Bool.false_and]
  unfold tryScheme
  rw [h1, h2]
  simp

lemma tryUrl_ne_h (c : Char) (cs : List Char) (hc : c ≠ 'h') : tryUrl (c :: cs) = none := by
  unfold tryUrl
  rw [tryScheme_ne_h c cs hc]

lemma tryUrl_length {l : List Char} {u : String} {r : List Char}
    (h : tryUrl l = some (u, r)) : r.length < l.length := by
  unfold tryUrl at h
  cases hts : tryScheme l with
  | none => rw [hts] at h; exact absurd h (by simp)
  | some x =>
      obtain ⟨scheme, rest⟩ := x
      rw [hts] at h
      simp only [] at h
      split at h
      · exact absurd h (by simp)
      · have hr : r = rest.dropWhile urlChar := by
          injection h with h'
          injection h' with h1' h2'
          exact h2'.symm
        unfold tryScheme at hts
        split at hts
        · rename_i hp
          have hlen : 8 ≤ l.length := by
            have h8 := List.IsPrefix.length_le (List.isPrefixOf_iff_prefix.mp hp)
            simpa [httpsChars] using h8
          have hrest : rest = l.drop 8 := by
            injection hts with h'
            injection h' with h1' h2'
            exact h2'.symm
          subst hr
          rw [hrest]
          have hd : ((l.drop 8).dropWhile urlChar).length ≤ (l.drop 8).length :=
            dropWhile_length_le _ _
          rw [List.length_drop] at hd
          omega
        · split at hts
          · rename_i hp
            have hlen : 7 ≤ l.length := by
              have h7 := List.IsPrefix.length_le (List.isPrefixOf_iff_prefix.mp hp)
              simpa [httpChars] using h7
            have hrest : rest = l.drop 7 := by
              injection hts with h'
              injection h' with h1' h2'
              exact h2'.symm
            subst hr
            rw [hrest]
            have hd : ((l.drop 7).dropWhile urlChar).length ≤ (l.drop 7).length :=
              dropWhile_length_le _ _
            rw [List.length_drop] at hd
            omega
          · exact absurd hts (by simp)

lemma findBareAux_congr : ∀ (n m : Nat) (prev : Option Char) (l : List Char),
    l.length ≤ n → l.length ≤ m → findBareAux n prev l = findBareAux m prev l := by
  intro n
  induction n with
  | zero =>
      intro m prev l hn _
      have hl : l = [] := List.length_eq_zero.mp (Nat.le_zero.mp hn)
      subst hl
      cases m <;> rfl
  | succ n ih =>
      intro m prev l hn hm
      cases l with
      | nil => cases m <;> rfl
      | cons c cs =>
          cases m with
          | zero => simp at hm
          | succ m =>
              simp only [List.length_cons, Nat.add_le_add_iff_right] at hn hm
              simp only [findBareAux]
              by_cases hp : prev = some '('
              · rw [if_pos hp, if_pos hp]
                exact ih m (some c) cs hn hm
              · rw [if_neg hp, if_neg hp]
                cases htu : tryUrl (c :: cs) with
                | none => exact ih m (some c) cs hn hm
                | some x =>
                    obtain ⟨u, r⟩ := x
                    have hr := tryUrl_length htu
                    simp only [List.length_cons] at hr
                    simp only []
                    rw [ih m u.data.getLast? r (by omega) (by omega)]

lemma findBareGo_cons (prev : Option Char) (c : Char) (cs : List Char) :
    findBareGo prev (c :: cs) =
      if prev = some '(' then findBareGo (some c) cs
      else
        match tryUrl (c :: cs) with
        | some (u, r) => u :: findBareGo u.data.getLast? r
        | none => findBareGo (some c) cs := by
  show findBareAux (c :: cs).length prev (c :: cs) = _
  simp only [List.length_cons, findBareAux]
  by_cases hp : prev = some '('
  · rw [if_pos hp, if_pos hp]
    exact findBareAux_congr _ _ _ _ (le_refl _) (le_refl _)
  · rw [if_neg hp, if_neg hp]
    cases htu : tryUrl (c :: cs) with
    | none => exact findBareAux_congr _ _ _ _ (le_refl _) (le_refl _)
    | some x =>
        obtain ⟨u, r⟩ := x
        have hr := tryUrl_length htu
        simp only [List.length_cons] at hr
        simp only []
        rw [findBareAux_congr cs.length r.length u.data.getLast? r (by omega) (le_refl _)]
        rfl

lemma tryUrl_shape_http (t post : List Char) (ht : t ≠ []) (htc : ∀ c ∈ t, urlChar c = true)
    (hpost : ∀ x xs, post = x :: xs → urlChar x = false) :
    tryUrl (httpChars ++ (t ++ post)) = some ((httpChars ++ t).asString, post) := by
  unfold tryUrl
  rw [tryScheme_http]
  simp only []
  rw [takeWhile_sentinel urlChar t post htc hpost, dropWhile_sentinel urlChar t post htc hpost]
  have hte : t.isEmpty = false := by
    cases t with
    | nil => exact absurd rfl ht
    | cons a as => rfl
  rw [hte]
  simp

lemma tryUrl_shape_https (t post : List Char) (ht : t ≠ []) (htc : ∀ c ∈ t, urlChar c = true)
    (hpost : ∀ x xs, post = x :: xs → urlChar x = false) :
    tryUrl (httpsChars ++ (t ++ post)) = some ((httpsChars ++ t).asString, post) := by
  unfold tryUrl
  rw [tryScheme_https]
  simp only []
  rw [takeWhile_sentinel urlChar t post htc hpost, dropWhile_sentinel urlChar t post htc hpost]
  have hte : t.isEmpty = false := by
    cases t with
    | nil => exact absurd rfl ht
    | cons a as => rfl
  rw [hte]
  simp

lemma getLast?_cons_or (c : Char) (l : List Char) :
    (c :: l).getLast? = l.getLast?.or (some c) := by
  cases l with
  | nil => rfl
  | cons d ds =>
      rw [List.getLast?_cons_cons]
      cases hds : (d :: ds).getLast? with
      | none => exact absurd hds (by simp)
      | some x => rfl

lemma or_some_or (x : Option Char) (c : Char) (p : Option Char) :
    (x.or (some c)).or p = x.or (some c) := by
  cases x <;> rfl

lemma findBareGo_skip (pre : List Char) (prev : Option Char) (rest : List Char)
    (hpre : 'h' ∉ pre) :
    findBareGo prev (pre ++ rest) = findBareGo (pre.getLast?.or prev) rest := by
  induction pre generalizing prev with
  | nil => rfl
  | cons c cs ih =>
      rw [List.cons_append, findBareGo_cons]
      have hc : c ≠ 'h' := by
        intro h
        subst h
        exact hpre (List.mem_cons_self _ _)
      rw [tryUrl_ne_h c (cs ++ rest) hc]
      have hcs : 'h' ∉ cs := fun h => hpre (List.mem_cons_of_mem c h)
      have hih := ih (some c) hcs
      rw [getLast?_cons_or, or_some_or]
      rw [← hih]
      split <;> rfl

lemma findBareGo_match (prev : Option Char) (l : List Char) (u : String) (r : List Char)
    (hprev : prev ≠ some '(') (h : tryUrl l = some (u, r)) :
    findBareGo prev l = u :: findBareGo u.data.getLast? r := by
  cases l with
  | nil =>
      exact absurd h (by simp [tryUrl, tryScheme, httpsChars, httpChars, List.isPrefixOf])
  | cons c cs =>
      rw [findBareGo_cons, if_neg hprev, h]

/-! ## Extractor-level lemmas -/

lemma lineLinks_fst (n : Nat) (line : String) (p : Nat × String) (h : p ∈ lineLinks n line) :
    p.1 = n := by
  unfold lineLinks at h
  rcases List.mem_append.mp h with h1 | h1
  · obtain ⟨q, _, rfl⟩ := List.mem_map.mp h1
    rfl
  · obtain ⟨u, _, rfl⟩ := List.mem_map.mp h1
    rfl

lemma extractGo_fst_ge (doc : List String) : ∀ (n : Nat) (p : Nat × String),
    p ∈ extractGo n doc → n ≤ p.1 := by
  induction doc with
  | nil => intro n p h; exact absurd h (List.not_mem_nil p)
  | cons l ls ih =>
      intro n p h
      simp only [extractGo] at h
      rcases List.mem_append.mp h with h1 | h1
      · exact le_of_eq (lineLinks_fst n l p h1).symm
      · exact le_trans (Nat.le_succ n) (ih (n + 1) p h1)

lemma pairwise_le_of_const (L : List Nat) (k : Nat) (h : ∀ x ∈ L, x = k) :
    L.Pairwise (fun a b => a ≤ b) := by
  induction L with
  | nil => exact List.Pairwise.nil
  | cons a as ih =>
      refine List.Pairwise.cons ?_ (ih fun x hx => h x (List.mem_cons_of_mem a hx))
      intro b hb
      rw [h a (List.mem_cons_self a as), h b (List.mem_cons_of_mem a hb)]

lemma extractGo_pairwise (doc : List String) : ∀ n : Nat,
    ((extractGo n doc).map Prod.fst).Pairwise (fun a b => a ≤ b) := by
  induction doc with
  | nil => intro n; simp [extractGo]
  | cons l ls ih =>
      intro n
      simp only [extractGo, List.map_append]
      rw [List.pairwise_append]
      refine ⟨?_, ih (n + 1), ?_⟩
      · apply pairwise_le_of_const _ n
        intro x hx
        obtain ⟨p, hp, rfl⟩ := List.mem_map.mp hx
        exact lineLinks_fst n l p hp
      · intro a ha b hb
        obtain ⟨p, hp, rfl⟩ := List.mem_map.mp ha
        obtain ⟨q, hq, rfl⟩ := List.mem_map.mp hb
        rw [lineLinks_fst n l p hp]
        exact le_trans (Nat.le_succ n) (extractGo_fst_ge ls (n + 1) q hq)

lemma extract_links_pairwise (doc : List String) :
    ((extract_links doc).map Prod.fst).Pairwise (fun a b => a ≤ b) :=
  extractGo_pairwise doc 1

lemma lineLinks_filter_self (n : Nat) (line : String) :
    (lineLinks n line).filter (fun p => p.1 == n) = lineLinks n line := by
  rw [List.filter_eq_self]
  intro p hp
  simp [lineLinks_fst n line p hp]

lemma lineLinks_filter_ne (n m : Nat) (line : String) (h : m ≠ n) :
    (lineLinks n line).filter (fun p => p.1 == m) = [] := by
  rw [List.filter_eq_nil_iff]
  intro p hp
  have hp1 := lineLinks_fst n line p hp
  simp only [hp1, beq_iff_eq]
  exact fun hc => h hc.symm

lemma extractGo_filter (doc : List String) : ∀ (n i : Nat), i < doc.length →
    (extractGo n doc).filter (fun p => p.1 == n + i) = lineLinks (n + i) (doc.getD i "") := by
  induction doc with
  | nil => intro n i h; simp at h
  | cons l ls ih =>
      intro n i h
      simp only [extractGo, List.filter_append]
      cases i with
      | zero =>
          rw [Nat.add_zero, lineLinks_filter_self]
          have h2 : (extractGo (n + 1) ls).filter (fun p => p.1 == n) = [] := by
            rw [List.filter_eq_nil_iff]
            intro p hp
            have hge := extractGo_fst_ge ls (n + 1) p hp
            simp only [beq_iff_eq]
            omega
          rw [h2, List.append_nil]
          rfl
      | succ i =>
          have hne : n + (i + 1) ≠ n := by omega
          rw [lineLinks_filter_ne n (n + (i + 1)) l hne, List.nil_append]
          have hadd : n + (i + 1) = (n + 1) + i := by omega
          rw [hadd]
          have hlen : i < ls.length := by
            simp only [List.length_cons] at h
            omega
          rw [ih (n + 1) i hlen]
          rfl

lemma extract_links_filter (doc : List String) (i : Nat) (h : i < doc.length) :
    (extract_links doc).filter (fun p => p.1 == i + 1) = lineLinks (i + 1) (doc.getD i "") := by
  have hgo := extractGo_filter doc 1 i h
  rw [Nat.add_comm 1 i] at hgo
  exact hgo

lemma mem_extract_links (doc : List String) (i : Nat) (p : Nat × String) (h : i < doc.length)
    (hp : p ∈ lineLinks (i + 1) (doc.getD i "")) : p ∈ extract_links doc := by
  rw [← extract_links_filter doc i h] at hp
  exact (List.mem_filter.mp hp).1

/-! ## Driver lemmas -/

lemma probeAll_broken_nil_iff (net : String → ReqKind → NetOutcome) (L : List (Nat × String)) :
    (probeAll net L).2.1 = [] ↔ ∀ p ∈ L, ((check_link (net p.2)).1).1 = true := by
  induction L with
  | nil => simp [probeAll]
  | cons q rest ih =>
      obtain ⟨ln, url⟩ := q
      simp only [probeAll]
      by_cases hr : ((check_link (net url)).1).1 = true
      · rw [if_pos hr]
        show (probeAll net rest).2.1 = [] ↔ _
        constructor
        · intro h p hp
          rcases List.mem_cons.mp hp with h1 | h1
          · subst h1; exact hr
          · exact (ih.mp h) p h1
        · intro h
          exact ih.mpr fun p hp => h p (List.mem_cons_of_mem _ hp)
      · rw [if_neg hr]
        refine iff_of_false (List.cons_ne_nil _ _) ?_
        intro h
        exact hr (h (ln, url) (List.mem_cons_self _ _))

lemma tryMd_nonempty {l : List Char} {t u : String} {r : List Char}
    (h : tryMd l = some (t, u, r)) : t ≠ "" ∧ u ≠ "" := by
  unfold tryMd at h
  split at h
  · exact absurd h (by simp)
  · rename_i hte
    split at h
    · exact absurd h (by simp)
    · rename_i c1 r1 heq1
      split at h
      · cases r1 with
        | nil => exact absurd h (by simp)
        | cons c2 r2 =>
            simp only [] at h
            split at h
            · split at h
              · exact absurd h (by simp)
              · rename_i hue
                split at h
                · exact absurd h (by simp)
                · rename_i c3 r4 heq2
                  split at h
                  · have h1 : t = (l.takeWhile (fun c => c != ']')).asString := by
                      injection h with h'
                      injection h' with ha hb
                      exact ha.symm
                    have h2 : u = (r2.takeWhile (fun c => c != ')')).asString := by
                      injection h with h'
                      injection h' with ha hb
                      injection hb with hb1 hb2
                      exact hb1.symm
                    constructor
                    · rw [h1]
                      apply asString_ne_empty
                      intro hn
                      rw [hn] at hte
                      exact hte rfl
                    · rw [h2]
                      apply asString_ne_empty
                      intro hn
                      rw [hn] at hue
                      exact hue rfl
                  · exact absurd h (by simp)
            · exact absurd h (by simp)
      · exact absurd h (by simp)

lemma findMdAux_nonempty : ∀ (f : Nat) (l : List Char) (t u : String),
    (t, u) ∈ findMdAux f l → t ≠ "" ∧ u ≠ "" := by
  intro f
  induction f with
  | zero => intro l t u h; exact absurd h (List.not_mem_nil _)
  | succ f ih =>
      intro l t u h
      cases l with
      | nil => exact absurd h (List.not_mem_nil _)
      | cons c cs =>
          simp only [findMdAux] at h
          by_cases hc : c = '['
          · rw [if_pos hc] at h
            cases htm : tryMd cs with
            | none => rw [htm] at h; exact ih cs t u h
            | some x =>
                obtain ⟨t', u', r⟩ := x
                rw [htm] at h
                simp only [] at h
                rcases List.mem_cons.mp h with h1 | h1
                · obtain ⟨ht', hu'⟩ := tryMd_nonempty htm
                  injection h1 with ha hb
                  subst ha
                  subst hb
                  exact ⟨ht', hu'⟩
                · exact ih r t u h1
          · rw [if_neg hc] at h
            exact ih cs t u h

lemma findMd_nonempty (l : List Char) (t u : String) (h : (t, u) ∈ findMd l) :
    t ≠ "" ∧ u ≠ "" :=
  findMdAux_nonempty l.length l t u h

/-! ## Claims -/

/-- C1: for every network behaviour, when the response used for the final
verdict of `check_link` has a status code strictly below 400 the result is
the valid triple `(true, "OK", code)`, and when the status code is 400 or
greater the result is the broken triple `(false, "HTTP <code>", code)`;
in particular status 399 is valid and status 400 is broken. -/
theorem check_link_classification (net : ReqKind → NetOutcome) (s : Nat)
    (h : finalStatus net = some s) :
    (s < 400 → (check_link net).1 = (true, "OK", s)) ∧
    (400 ≤ s → (check_link net).1 = (false, "HTTP " ++ toString s, s)) := by
  cases hh : net ReqKind.head with
  | ok s1 =>
      by_cases h4 : 400 ≤ s1
      · cases hg : net ReqKind.get with
        | ok s2 =>
            simp only [finalStatus, hh, hg, h4, if_true, Option.some.injEq] at h
            subst h
            constructor
            · intro hlt
              simp [check_link, hh, hg, h4, classifyStatus, hlt]
            · intro hge
              have hnlt : ¬ s2 < 400 := by omega
              simp [check_link, hh, hg, h4, classifyStatus, hnlt]
        | timeout => simp [finalStatus, hh, hg, h4] at h
        | connError => simp [finalStatus, hh, hg, h4] at h
        | tooManyRedirects => simp [finalStatus, hh, hg, h4] at h
        | requestError d => simp [finalStatus, hh, hg, h4] at h
        | otherError d => simp [finalStatus, hh, hg, h4] at h
      · simp only [finalStatus, hh, h4, if_false, Option.some.injEq] at h
        subst h
        constructor
        · intro hlt
          simp [check_link, hh, h4, classifyStatus, hlt]
        · intro hge
          exact absurd hge h4
  | timeout => simp [finalStatus, hh] at h
  | connError => simp [finalStatus, hh] at h
  | tooManyRedirects => simp [finalStatus, hh] at h
  | requestError d => simp [finalStatus, hh] at h
  | otherError d => simp [finalStatus, hh] at h

/-- Witness for C1: a HEAD response with status 399 yields the valid result,
and HEAD 400 followed by GET 400 yields the broken result with reason
"HTTP 400". -/
theorem check_link_classification_witness :
    (check_link (fun _ => NetOutcome.ok 399)).1 = (true, "OK", 399) ∧
    (check_link (fun _ => NetOutcome.ok 400)).1 = (false, "HTTP 400", 400) :=
  ⟨(check_link_classification (fun _ => NetOutcome.ok 399) 399 (by decide)).1 (by decide),
   ((check_link_classification (fun _ => NetOutcome.ok 400) 400 (by decide)).2
      (by decide)).trans (by decide)⟩

/-- C2: `check_link` never propagates a failure: every exception outcome, on
the HEAD request or on the GET fallback, is mapped to a broken result with
status code 0 and the corresponding reason string. -/
theorem check_link_exceptions (net : ReqKind → NetOutcome) (s : Nat) (d : String) :
    (net ReqKind.head = NetOutcome.timeout →
      (check_link net).1 = (false, "Timeout", 0)) ∧
    (net ReqKind.head = NetOutcome.connError →
      (check_link net).1 = (false, "Connection Error", 0)) ∧
    (net ReqKind.head = NetOutcome.tooManyRedirects →
      (check_link net).1 = (false, "Too Many Redirects", 0)) ∧
    (net ReqKind.head = NetOutcome.requestError d →
      (check_link net).1 = (false, "Request Error: " ++ d, 0)) ∧
    (net ReqKind.head = NetOutcome.otherError d →
      (check_link net).1 = (false, "Unknown Error: " ++ d, 0)) ∧
    (net ReqKind.head = NetOutcome.ok s → 400 ≤ s → net ReqKind.get = NetOutcome.timeout →
      (check_link net).1 = (false, "Timeout", 0)) ∧
    (net ReqKind.head = NetOutcome.ok s → 400 ≤ s → net ReqKind.get = NetOutcome.connError →
      (check_link net).1 = (false, "Connection Error", 0)) ∧
    (net ReqKind.head = NetOutcome.ok s → 400 ≤ s →
      net ReqKind.get = NetOutcome.tooManyRedirects →
      (check_link net).1 = (false, "Too Many Redirects", 0)) ∧
    (net ReqKind.head = NetOutcome.ok s → 400 ≤ s →
      net ReqKind.get = NetOutcome.requestError d →
      (check_link net).1 = (false, "Request Error: " ++ d, 0)) ∧
    (net ReqKind.head = NetOutcome.ok s → 400 ≤ s →
      net ReqKind.get = NetOutcome.otherError d →
      (check_link net).1 = (false, "Unknown Error: " ++ d, 0)) := by
  refine ⟨?_, ?_, ?_, ?_, ?_, ?_, ?_, ?_, ?_, ?_⟩
  · intro h
    simp [check_link, h]
  · intro h
    simp [check_link, h]
  · intro h
    simp [check_link, h]
  · intro h
    simp [check_link, h]
  · intro h
    simp [check_link, h]
  · intro h1 h2 h3
    simp [check_link, h1, h2, h3]
  · intro h1 h2 h3
    simp [check_link, h1, h2, h3]
  · intro h1 h2 h3
    simp [check_link, h1, h2, h3]
  · intro h1 h2 h3
    simp [check_link, h1, h2, h3]
  · intro h1 h2 h3
    simp [check_link, h1, h2, h3]

/-- Witness for C2: a timeout on the HEAD request and a connection failure
on the GET fallback both yield the mapped broken results. -/
theorem check_link_exceptions_witness :
    (check_link (fun _ => NetOutcome.timeout)).1 = (false, "Timeout", 0) ∧
    (check_link (fun k => match k with
        | ReqKind.head => NetOutcome.ok 500
        | ReqKind.get => NetOutcome.connError)).1 = (false, "Connection Error", 0) :=
  ⟨(check_link_exceptions (fun _ => NetOutcome.timeout) 0 "").1 rfl,
   (check_link_exceptions (fun k => match k with
        | ReqKind.head => NetOutcome.ok 500
        | ReqKind.get => NetOutcome.connError) 500 "").2.2.2.2.2.2.1 rfl (by decide) rfl⟩

/-- C3: the Driver's exit code is 0 exactly when at least one link was
extracted and every probed link was classified valid, and 1 exactly when
some probed link is broken or no links were extracted. -/
theorem run_main_exit_code (doc : List String) (net : String → ReqKind → NetOutcome) :
    ((run_main doc net).exitCode = 0 ↔
      extract_links doc ≠ [] ∧
        ∀ p ∈ extract_links doc, ((check_link (net p.2)).1).1 = true) ∧
    ((run_main doc net).exitCode = 1 ↔
      extract_links doc = [] ∨
        ∃ p ∈ extract_links doc, ((check_link (net p.2)).1).1 = false) := by
  by_cases hE : extract_links doc = []
  · unfold run_main
    rw [if_pos hE]
    constructor
    · exact iff_of_false (by decide) (fun hc => hc.1 hE)
    · exact iff_of_true rfl (Or.inl hE)
  · unfold run_main
    rw [if_neg hE]
    by_cases hB : (probeAll net (extract_links doc)).2.1 = []
    · have hv := (probeAll_broken_nil_iff net (extract_links doc)).mp hB
      constructor
      · refine iff_of_true ?_ ⟨hE, hv⟩
        show (if (probeAll net (extract_links doc)).2.1 = [] then 0 else 1) = 0
        rw [if_pos hB]
      · refine iff_of_false ?_ ?_
        · show ¬ (if (probeAll net (extract_links doc)).2.1 = [] then 0 else 1) = 1
          rw [if_pos hB]
          decide
        · rintro (hc | ⟨p, hp, hc⟩)
          · exact hE hc
          · rw [hv p hp] at hc
            exact Bool.noConfusion hc
    · have hnv : ¬ ∀ p ∈ extract_links doc, ((check_link (net p.2)).1).1 = true :=
        fun hv => hB ((probeAll_broken_nil_iff net (extract_links doc)).mpr hv)
      have hex : ∃ p ∈ extract_links doc, ((check_link (net p.2)).1).1 = false := by
        push_neg at hnv
        obtain ⟨p, hp, hne⟩ := hnv
        refine ⟨p, hp, ?_⟩
        cases hval : ((check_link (net p.2)).1).1 with
        | true => exact absurd hval hne
        | false => rfl
      constructor
      · refine iff_of_false ?_ (fun hc => hnv hc.2)
        show ¬ (if (probeAll net (extract_links doc)).2.1 = [] then 0 else 1) = 0
        rw [if_neg hB]
        decide
      · refine iff_of_true ?_ (Or.inr hex)
        show (if (probeAll net (extract_links doc)).2.1 = [] then 0 else 1) = 1
        rw [if_neg hB]

/-- C4: when the Extractor finds no links, the Driver exits with code 1
immediately, probing nothing and accumulating nothing. -/
theorem run_main_no_links (doc : List String) (net : String → ReqKind → NetOutcome)
    (h : extract_links doc = []) :
    run_main doc net = ⟨1, [], [], []⟩ := by
  unfold run_main
  rw [if_pos h]

/-- Witness for C4: a document with no links makes the Driver exit 1 with an
empty probe list. -/
theorem run_main_no_links_witness :
    extract_links ["plain text without links"] = [] ∧
    run_main ["plain text without links"] (fun _ _ => NetOutcome.ok 200) = ⟨1, [], [], []⟩ :=
  ⟨by decide, run_main_no_links ["plain text without links"] (fun _ _ => NetOutcome.ok 200)
    (by decide)⟩

/-- C8: the sequence of line numbers in the Extractor's output is
non-decreasing from the first entry to the last. -/
theorem extract_links_line_numbers_monotone (doc : List String) :
    ((extract_links doc).map Prod.fst).Pairwise (fun a b => a ≤ b) :=
  extract_links_pairwise doc

/-- C10: when the HEAD response status is below 400, `check_link` issues no
GET request and returns the valid result with the HEAD status; when the HEAD
status is 400 or greater it issues the GET fallback; and a GET request is
issued only when the HEAD response is a status of 400 or greater. -/
theorem check_link_head_get (net : ReqKind → NetOutcome) (s : Nat) :
    (net ReqKind.head = NetOutcome.ok s → s < 400 →
      check_link net = ((true, "OK", s), [ReqKind.head])) ∧
    (net ReqKind.head = NetOutcome.ok s → 400 ≤ s →
      (check_link net).2 = [ReqKind.head, ReqKind.get]) ∧
    (ReqKind.get ∈ (check_link net).2 →
      ∃ s2, net ReqKind.head = NetOutcome.ok s2 ∧ 400 ≤ s2) := by
  refine ⟨?_, ?_, ?_⟩
  · intro h hlt
    have h4 : ¬ 400 ≤ s := by omega
    simp [check_link, h, h4, classifyStatus, hlt]
  · intro h hge
    simp only [check_link, h, hge, if_true]
    cases hg : net ReqKind.get <;> simp [classifyStatus]
  · intro h
    cases hh : net ReqKind.head with
    | ok s1 =>
        by_cases h4 : 400 ≤ s1
        · exact ⟨s1, rfl, h4⟩
        · simp only [check_link, hh, h4, if_false] at h
          exact absurd h (by decide)
    | timeout =>
        simp only [check_link, hh] at h
        exact absurd h (by decide)
    | connError =>
        simp only [check_link, hh] at h
        exact absurd h (by decide)
    | tooManyRedirects =>
        simp only [check_link, hh] at h
        exact absurd h (by decide)
    | requestError d =>
        simp only [check_link, hh] at h
        exact absurd h (by decide)
    | otherError d =>
        simp only [check_link, hh] at h
        exact absurd h (by decide)

/-- Witness for C10: a HEAD status of 200 issues only the HEAD request and a
HEAD status of 404 issues the GET fallback. -/
theorem check_link_head_get_witness :
    check_link (fun _ => NetOutcome.ok 200) = ((true, "OK", 200), [ReqKind.head]) ∧
    (check_link (fun _ => NetOutcome.ok 404)).2 = [ReqKind.head, ReqKind.get] :=
  ⟨(check_link_head_get (fun _ => NetOutcome.ok 200) 200).1 rfl (by decide),
   (check_link_head_get (fun _ => NetOutcome.ok 404) 404).2.1 rfl (by decide)⟩

/-- C5 counterexample: on a line where a bare URL appears to the left of a
markdown link, the Extractor emits the markdown target first, so the output
is not ordered left to right within the line as the claim states. -/
theorem extract_links_order_counterexample :
    extract_links ["https://a [b](https://c)"] = [(1, "https://c"), (1, "https://a")] ∧
    extract_links ["https://a [b](https://c)"] ≠ [(1, "https://a"), (1, "https://c")] :=
  ⟨by decide, by decide⟩

/-- C5 amended: the Extractor's output is ordered by line number, top to
bottom, with duplicates preserved and no deduplication; within a single
line all markdown-link targets are emitted first, in left-to-right scan
order, followed by all bare URLs in left-to-right scan order — not in
overall left-to-right order of appearance.  Formally: the line numbers are
pairwise non-decreasing, and restricting the output to one line number
yields exactly that line's filtered markdown matches followed by its bare
matches. -/
theorem extract_links_order_amended (doc : List String) :
    ((extract_links doc).map Prod.fst).Pairwise (fun a b => a ≤ b) ∧
    ∀ i, i < doc.length →
      (extract_links doc).filter (fun p => p.1 == i + 1) =
        ((findMd (doc.getD i "").data).filter (fun q => startsWithHttp q.2)).map
            (fun q => (i + 1, q.2)) ++
          (findBare (doc.getD i "").data).map (fun u => (i + 1, u)) :=
  ⟨extract_links_pairwise doc, fun i hi => extract_links_filter doc i hi⟩

/-- Witness for C5 (amended) at a one-line document holding both a bare URL
and a markdown link. -/
theorem extract_links_order_amended_witness :
    0 < List.length ["http://a [b](http://c)"] ∧
    (extract_links ["http://a [b](http://c)"]).filter (fun p => p.1 == 0 + 1) =
      ((findMd (List.getD ["http://a [b](http://c)"] 0 "").data).filter
          (fun q => startsWithHttp q.2)).map (fun q => (0 + 1, q.2)) ++
        (findBare (List.getD ["http://a [b](http://c)"] 0 "").data).map
          (fun u => (0 + 1, u)) :=
  ⟨by decide, (extract_links_order_amended ["http://a [b](http://c)"]).2 0 (by decide)⟩

/-- C6 counterexample: the target capture stops at the first closing
parenthesis even when it is escaped with a backslash, so on the line
`[t](http://a\)b)` the emitted target is `http://a\` and not the
`http://a\)b` that stopping only at an unescaped parenthesis would give. -/
theorem md_target_counterexample :
    extract_links ["[t](http://a\\)b)"] = [(1, "http://a\\")] ∧
    (1, "http://a\\)b") ∉ extract_links ["[t](http://a\\)b)"] :=
  ⟨by decide, by decide⟩

/-- C6 amended: for every line of the form `pre[text](url)post` in which
`pre` contains no opening bracket (so the markdown scan reaches this link),
the display text is nonempty and free of closing brackets, and the target is
nonempty, free of closing parentheses — escaped or not — and begins with
`http://` or `https://`, the Extractor emits `(line_number, target)`; the
capture stops at the first closing parenthesis of the line regardless of
escaping. -/
theorem md_target_emitted (doc : List String) (i : Nat) (pre text url post : String)
    (hi : i < doc.length)
    (hline : doc.getD i "" = pre ++ "[" ++ text ++ "](" ++ url ++ ")" ++ post)
    (hpre : '[' ∉ pre.data)
    (htext : text.data ≠ []) (htext2 : ']' ∉ text.data)
    (hurl : url.data ≠ []) (hurl2 : ')' ∉ url.data)
    (hhttp : startsWithHttp url = true) :
    (i + 1, url) ∈ extract_links doc := by
  apply mem_extract_links doc i (i + 1, url) hi
  unfold lineLinks
  apply List.mem_append_left
  have hb1 : ("[" : String).data = ['['] := rfl
  have hb2 : ("](" : String).data = [']', '('] := rfl
  have hb3 : (")" : String).data = [')'] := rfl
  have hdata : (doc.getD i "").data =
      pre.data ++ ('[' :: (text.data ++ (']' :: '(' :: (url.data ++ (')' :: post.data))))) := by
    rw [hline]
    simp [String.data_append, hb1, hb2, hb3, List.append_assoc]
  rw [hdata, findMd_shape pre.data text.data url.data post.data hpre htext htext2 hurl hurl2]
  rw [asString_data, asString_data]
  refine List.mem_map.mpr ⟨(text, url), ?_, rfl⟩
  exact List.mem_filter.mpr ⟨List.mem_cons_self _ _, hhttp⟩

/-- Witness for C6 (amended) on the line `x [t](http://a) y`. -/
theorem md_target_emitted_witness :
    (1, "http://a") ∈ extract_links ["x [t](http://a) y"] :=
  md_target_emitted ["x [t](http://a) y"] 0 "x " "t" "http://a" " y"
    (by decide) (by decide) (by decide) (by decide) (by decide) (by decide) (by decide)
    (by decide)

/-- C7 counterexample: a `https://` substring that starts inside an earlier
bare-URL match is not emitted separately, although it begins with the scheme
and is not preceded by an opening parenthesis. -/
theorem bare_url_counterexample :
    extract_links ["http://a?u=https://b"] = [(1, "http://a?u=https://b")] ∧
    (1, "https://b") ∉ extract_links ["http://a?u=https://b"] :=
  ⟨by decide, by decide⟩

/-- C7 amended: a maximal bare URL is emitted when it does not start inside
an earlier match: for every line `pre · u · post` where `u` is `http://` or
`https://` followed by at least one character allowed in a URL, `pre` does
not end with an opening parenthesis and contains no `h` (so no earlier
bare-URL match can reach into `u`), and `post` is empty or starts with
whitespace or a closing parenthesis, the Extractor emits
`(line_number, u)`.  A scheme substring beginning inside an earlier bare
match, as in the counterexample, is not emitted. -/
theorem bare_url_emitted (doc : List String) (i : Nat) (pre u post : String)
    (hi : i < doc.length)
    (hline : doc.getD i "" = pre ++ u ++ post)
    (hpre1 : 'h' ∉ pre.data)
    (hpre2 : pre.data.getLast? ≠ some '(')
    (hu : (∃ t : String, u = httpScheme ++ t ∧ t.data ≠ [] ∧ ∀ c ∈ t.data, urlChar c = true) ∨
      (∃ t : String, u = httpsScheme ++ t ∧ t.data ≠ [] ∧ ∀ c ∈ t.data, urlChar c = true))
    (hpost : ∀ x xs, post.data = x :: xs → urlChar x = false) :
    (i + 1, u) ∈ extract_links doc := by
  apply mem_extract_links doc i (i + 1, u) hi
  unfold lineLinks
  apply List.mem_append_right
  refine List.mem_map.mpr ⟨u, ?_, rfl⟩
  have hdata : (doc.getD i "").data = pre.data ++ (u.data ++ post.data) := by
    rw [hline]
    simp [String.data_append, List.append_assoc]
  rw [hdata]
  unfold findBare
  rw [findBareGo_skip pre.data none (u.data ++ post.data) hpre1]
  have hprev : pre.data.getLast?.or none ≠ some '(' := by
    cases hgl : pre.data.getLast? with
    | none => simp [Option.or]
    | some x =>
        have hx : x ≠ '(' := by
          intro hc
          subst hc
          exact hpre2 hgl
        have hred : (Option.some x).or none = some x := rfl
        rw [hred]
        intro hc
        exact hx (Option.some.inj hc)
  rcases hu with ⟨t, hut, htne, htc⟩ | ⟨t, hut, htne, htc⟩
  · have hud : u.data = httpChars ++ t.data := by
      rw [hut, String.data_append]
      have hsch : httpScheme.data = httpChars := by decide
      rw [hsch]
    rw [hud, List.append_assoc]
    rw [findBareGo_match (pre.data.getLast?.or none) (httpChars ++ (t.data ++ post.data))
      ((httpChars ++ t.data).asString) post.data hprev
      (tryUrl_shape_http t.data post.data htne htc hpost)]
    have hback : (httpChars ++ t.data).asString = u := by
      rw [← hud, asString_data]
    rw [hback]
    exact List.mem_cons_self _ _
  · have hud : u.data = httpsChars ++ t.data := by
      rw [hut, String.data_append]
      have hsch : httpsScheme.data = httpsChars := by decide
      rw [hsch]
    rw [hud, List.append_assoc]
    rw [findBareGo_match (pre.data.getLast?.or none) (httpsChars ++ (t.data ++ post.data))
      ((httpsChars ++ t.data).asString) post.data hprev
      (tryUrl_shape_https t.data post.data htne htc hpost)]
    have hback : (httpsChars ++ t.data).asString = u := by
      rw [← hud, asString_data]
    rw [hback]
    exact List.mem_cons_self _ _

/-- Witness for C7 (amended) on the line `see http://a.io now`. -/
theorem bare_url_emitted_witness :
    (1, "http://a.io") ∈ extract_links ["see http://a.io now"] := by
  refine bare_url_emitted ["see http://a.io now"] 0 "see " "http://a.io" " now"
    (by decide) (by decide) (by decide) (by decide)
    (Or.inl ⟨"a.io", by decide, by decide, by decide⟩) ?_
  intro x xs h
  injection h with h1 _
  subst h1
  decide

/-- C9: the markdown-link rule never matches an empty display text or an
empty target: every pair it produces has both captures nonempty, and the
lines `[](https://example.com)` and `[text]()` yield no links at all. -/
theorem md_no_empty_capture :
    (∀ (l : List Char) (t u : String), (t, u) ∈ findMd l → t ≠ "" ∧ u ≠ "") ∧
    extract_links ["[](https://example.com)"] = [] ∧
    extract_links ["[text]()"] = [] :=
  ⟨fun l t u h => findMd_nonempty l t u h, by decide, by decide⟩

/-- Witness for C9: the markdown match on `[a](b)` has nonempty captures. -/
theorem md_no_empty_capture_witness :
    ("a", "b") ∈ findMd ("[a](b)".data) ∧ ("a" ≠ "" ∧ "b" ≠ "") :=
  ⟨by decide, md_no_empty_capture.1 ("[a](b)".data) "a" "b" (by decide)⟩
